import Mathlib

/-!
# The saturating Q15 vector kernel `q15_axpy_rvv` (src/test.c)

A shallow embedding of the strip-mined RISC-V vector loop of `src/test.c`.

* Memory: the three buffers `a`, `b`, `y` are separate lists of integers; a cell
  holds an `int16_t` value.  An access outside a buffer is a trap.
* Machine integers: `size_t` arithmetic is taken modulo `2 ^ 64`, 16 and 32 bit
  lanes are read through `wrapSigned`.
* Vector intrinsics: a vector value is the list of its active lanes; every
  intrinsic acts on the first `vl` lanes, lane by lane, as the RISC-V vector
  specification defines the instruction it stands for.
* The hart: `Hart.VLMAX` is the hardware lane count for SEW=16, LMUL=4.
  `Hart.committed` is the number of lanes a store really commits, which is also
  what the `vl` register holds when it is read after that store. A hart that
  follows the vector specification commits every requested lane
  (`Hart.standard`); other harts are what the retry branch of the source is
  written for.
-/

namespace Q15Axpy

/-! ## Machine integers -/

/-- Signed reading of the low `w` bits of `x` (two's complement). -/
def wrapSigned (w : Nat) (x : Int) : Int :=
  (x + 2 ^ (w - 1)) % 2 ^ w - 2 ^ (w - 1)

/-- The values an `int16_t` can hold. -/
def InInt16 (x : Int) : Prop := -32768 ≤ x ∧ x ≤ 32767

instance (x : Int) : Decidable (InInt16 x) := by unfold InInt16; infer_instance

/-- The values an `int` (32 bit) can hold. -/
def InInt32 (x : Int) : Prop := -2147483648 ≤ x ∧ x ≤ 2147483647

instance (x : Int) : Decidable (InInt32 x) := by unfold InInt32; infer_instance

/-- Conversion of the `int` argument `n` to `size_t` (64 bit), as the comparison
`i < n` and the subtraction `n - i` of the source do implicitly. -/
def toSizeT (n : Int) : Nat := (n % 2 ^ 64).toNat

/-- Subtraction of two `size_t` values. -/
def sizeSub (x y : Nat) : Nat := (x % 2 ^ 64 + 2 ^ 64 - y % 2 ^ 64) % 2 ^ 64

/-- Addition of two `size_t` values. -/
def sizeAdd (x y : Nat) : Nat := (x + y) % 2 ^ 64

/-- Clamp `v` into `[lo, hi]`. -/
def clamp (v lo hi : Int) : Int :=
  if v < lo then lo else if hi < v then hi else v

/-! ## The hart -/

/-- The hardware parameters the kernel depends on. `committed i retry vl` is the
number of lanes committed by the store issued at cursor `i` for `vl` lanes
(`retry = false` for the store of line 25, `true` for the one of line 31). -/
structure Hart where
  VLMAX : Nat
  committed : Nat → Bool → Nat → Nat

/-- A hart on which a store commits every lane it is asked for and leaves the
`vl` register alone. -/
def Hart.standard (vlmax : Nat) : Hart :=
  { VLMAX := vlmax, committed := fun _ _ vl => vl }

/-- A hart on which the first store of the chunk at cursor `at_i` commits only
`k` lanes; every other store commits in full. -/
def Hart.shortAt (vlmax at_i k : Nat) : Hart :=
  { VLMAX := vlmax
    committed := fun i retry vl => if i = at_i ∧ retry = false then k else vl }

/-- A hart on which, for the chunk at cursor `at_i`, the first store commits only
`k` lanes and the retry store only `r`; every other store commits in full. -/
def Hart.shortRetryAt (vlmax at_i k r : Nat) : Hart :=
  { VLMAX := vlmax
    committed := fun i retry vl => if i = at_i then (if retry then r else k) else vl }

/-- The retry store of every chunk commits all its lanes. -/
def Hart.RetryCommits (h : Hart) : Prop :=
  ∀ i vl, vl ≤ h.committed i true vl

/-- Rounding modes of the `vxrm` register. -/
inductive VXRM where
  | rnu
  | rne
  | rdn
  | rod
  deriving DecidableEq, Repr

/-! ## Intrinsics -/

/-- Model of `__riscv_vsetvl_e16m4(avl)`: the new vector length, `avl` when it
fits the hart and `VLMAX` otherwise. -/
def vsetvl_e16m4 (h : Hart) (avl : Nat) : Nat := min h.VLMAX avl

/-- Model of `__riscv_vle16_v_i16m4(&mem[i], vl)`: unit-stride load of `vl` lanes. -/
def vle16_v_i16m4 (mem : List Int) (i vl : Nat) : Option (List Int) :=
  if i + vl ≤ mem.length then some ((mem.drop i).take vl) else none

/-- Sign extension of one 16 bit lane to 32 bits. -/
def vsext_lane (x : Int) : Int := wrapSigned 16 x

/-- Model of `__riscv_vsext_vf2_i32m8(v, vl)`. -/
def vsext_vf2_i32m8 (v : List Int) (vl : Nat) : List Int :=
  (v.take vl).map vsext_lane

/-- One lane of `vwmacc.vx`: `vd[i] = +(x[rs1] * vs2[i]) + vd[i]`, the signed
16 by 16 bit product added to the 32 bit accumulator lane. -/
def vwmacc_lane (vd rs1 vs2 : Int) : Int :=
  wrapSigned 32 (wrapSigned 16 rs1 * wrapSigned 16 vs2 + vd)

/-- Model of `__riscv_vwmacc_vx_i32m8(vd, rs1, vs2, vl)`. -/
def vwmacc_vx_i32m8 (vd : List Int) (rs1 : Int) (vs2 : List Int) (vl : Nat) : List Int :=
  List.zipWith (fun d x => vwmacc_lane d rs1 x) (vd.take vl) (vs2.take vl)

/-- Bit `k` of `v`. -/
def bitAt (v : Int) (k : Nat) : Int := (v / 2 ^ k) % 2

/-- The bits `v[k-1:0]`. -/
def lowBits (v : Int) (k : Nat) : Int := v % 2 ^ k

/-- The rounding increment `r` of the vector specification for a right shift by `d`. -/
def roundIncrement (m : VXRM) (v : Int) (d : Nat) : Int :=
  match m with
  | .rnu => if d = 0 then 0 else bitAt v (d - 1)
  | .rne =>
    if d = 0 then 0
    else if bitAt v (d - 1) = 1 ∧ (lowBits v (d - 1) ≠ 0 ∨ bitAt v d = 1) then 1 else 0
  | .rdn => 0
  | .rod => if bitAt v d = 0 ∧ lowBits v d ≠ 0 then 1 else 0

/-- The function `roundoff_signed(v, d) = (v >> d) + r` of the vector specification. -/
def roundoff_signed (m : VXRM) (v : Int) (d : Nat) : Int :=
  v / 2 ^ d + roundIncrement m v d

/-- One lane of `vnclip.wx`: shift right by the low five bits of `shift`, round,
saturate to 16 bits. -/
def vnclip_lane (m : VXRM) (shift : Nat) (v : Int) : Int :=
  clamp (roundoff_signed m v (shift % 32)) (-32768) 32767

/-- Model of `__riscv_vnclip_wx_i16m4(vs2, shift, vxrm, vl)`. -/
def vnclip_wx_i16m4 (vs2 : List Int) (shift : Nat) (m : VXRM) (vl : Nat) : List Int :=
  (vs2.take vl).map (vnclip_lane m shift)

/-- Overwrite the cells of `mem` from index `i` on with the lanes `v`. -/
def writeLanes (mem : List Int) (i : Nat) (v : List Int) : List Int :=
  mem.take i ++ v ++ mem.drop (i + v.length)

/-- Model of `__riscv_vse16_v_i16m4(&mem[i], v, vl)`: a store of `vl` lanes of
which the hart commits `committed`. -/
def vse16_v_i16m4 (mem : List Int) (i : Nat) (v : List Int) (vl committed : Nat) :
    Option (List Int) :=
  if i + vl ≤ mem.length then some (writeLanes mem i (v.take (min committed vl)))
  else none

/-- Model of `__riscv_read_vl()` right after the store of line 25. -/
def read_vl (h : Hart) (i vl : Nat) : Nat := min (h.committed i false vl) vl

/-! ## The kernel -/

/-- Reasons for which a run has no final state. -/
inductive Trap where
  | outOfBounds
  | outOfFuel
  deriving DecidableEq, Repr

/-- The buffers, the cursor `i` and the log of the stores issued so far, each
recorded as (first index, number of lanes written). -/
structure State where
  a : List Int
  b : List Int
  y : List Int
  i : Nat
  stores : List (Nat × Nat)
  deriving DecidableEq, Repr

/-- The loop guard `i < n` of line 5, evaluated in `size_t`. -/
def loopGuard (i : Nat) (n : Int) : Bool := decide (i < toSizeT n)

/-- The element count `n - i` passed to `vsetvl` on line 6. -/
def requested (i : Nat) (n : Int) : Nat := sizeSub (toSizeT n) i

/-- What the kernel stores for one pair of input lanes (lines 14 to 23). -/
def laneOut (alpha x z : Int) : Int :=
  vnclip_lane VXRM.rdn 0 (vwmacc_lane (vsext_lane x) alpha z)

/-- One pass through the loop body (lines 6 to 34). -/
def iteration (h : Hart) (n : Int) (alpha : Int) (s : State) : Except Trap State :=
  let vl := vsetvl_e16m4 h (requested s.i n)
  match vle16_v_i16m4 s.a s.i vl with
  | none => .error .outOfBounds
  | some va =>
    match vle16_v_i16m4 s.b s.i vl with
    | none => .error .outOfBounds
    | some vb =>
      let va_extended := vsext_vf2_i32m8 va vl
      let vd := vwmacc_vx_i32m8 va_extended alpha vb vl
      let sat_vd := vnclip_wx_i16m4 vd 0 VXRM.rdn vl
      match vse16_v_i16m4 s.y s.i sat_vd vl (h.committed s.i false vl) with
      | none => .error .outOfBounds
      | some y1 =>
        let trap_vl := read_vl h s.i vl
        if trap_vl < vl then
          let vl2 := vsetvl_e16m4 h vl
          match vse16_v_i16m4 y1 s.i sat_vd vl2 (h.committed s.i true vl2) with
          | none => .error .outOfBounds
          | some y2 =>
            .ok { s with
                  y := y2
                  i := sizeAdd s.i vl2
                  stores := s.stores ++
                    [(s.i, trap_vl), (s.i, min (h.committed s.i true vl2) vl2)] }
        else
          .ok { s with
                y := y1
                i := sizeAdd s.i vl
                stores := s.stores ++ [(s.i, trap_vl)] }

/-- The `while (i < n)` loop of line 5, for at most `fuel` passes. -/
def loop (h : Hart) (n : Int) (alpha : Int) : Nat → State → Except Trap State
  | 0, s => if loopGuard s.i n then .error .outOfFuel else .ok s
  | fuel + 1, s =>
    if loopGuard s.i n then
      match iteration h n alpha s with
      | .ok s1 => loop h n alpha fuel s1
      | .error e => .error e
    else .ok s

/-- The state on entry: cursor 0 (line 4), nothing stored yet. -/
def initial (a b y : List Int) : State :=
  { a := a, b := b, y := y, i := 0, stores := [] }

/-- The kernel `q15_axpy_rvv(a, b, y, n, alpha)`. The fuel is the converted
trip bound `n`: a pass that advances the cursor advances it by at least one. -/
def q15_axpy_rvv (h : Hart) (a b y : List Int) (n : Int) (alpha : Int) :
    Except Trap State :=
  loop h n alpha (toSizeT n) (initial a b y)

/-- One step of the scalar loop: `y[i] = laneOut alpha a[i] b[i]`. -/
def scalarStep (a b : List Int) (alpha : Int) (acc : List Int) (i : Nat) : List Int :=
  match a[i]?, b[i]? with
  | some x, some z => acc.set i (laneOut alpha x z)
  | _, _ => acc

/-- The scalar fallback the specification speaks of: an element-by-element loop
`for i in 0 .. n` applying the per-lane arithmetic of the kernel. -/
def q15_axpy_scalar (a b y : List Int) (n : Nat) (alpha : Int) : List Int :=
  (List.range n).foldl (scalarStep a b alpha) y

/-- The value `clamp(x + alpha * z, -32768, 32767)`. -/
def sat_axpy (alpha x z : Int) : Int := clamp (x + alpha * z) (-32768) 32767

/-- A hart on which the `vl` register is changed by `vsetvl` only: read after
the store of line 25 it still holds the `vl` the store was issued for. -/
def Hart.KeepsVl (h : Hart) : Prop :=
  ∀ i vl, read_vl h i vl = vl

/-- The indices written by the logged stores, in the order they were written. -/
def writtenIndices (stores : List (Nat × Nat)) : List Nat :=
  stores.flatMap (fun p => List.range' p.1 p.2)

/-- The store `p` ends at or before the index the store `q` begins at. -/
def StoreBefore (p q : Nat × Nat) : Prop := p.1 + p.2 ≤ q.1

instance (p q : Nat × Nat) : Decidable (StoreBefore p q) := by
  unfold StoreBefore; infer_instance

end Q15Axpy

/-! # The array summation `sum_array` and its driver (src/mest.c)

`long` is 64 bit; the addition `sum += array[i]` is taken modulo `2 ^ 64`, as the
target machine computes it. The array is part of the state so that the frame of
the function can be stated. -/

namespace SumArray

/-- The values a `long` can hold. -/
def InLong (x : Int) : Prop := -9223372036854775808 ≤ x ∧ x ≤ 9223372036854775807

instance (x : Int) : Decidable (InLong x) := by unfold InLong; infer_instance

/-- The array, the accumulator `sum` and the loop counter `i`. -/
structure SumState where
  array : List Int
  sum : Int
  i : Nat
  deriving DecidableEq, Repr

/-- The body `sum += array[i]` of line 8 followed by the increment `i++`. -/
def sum_body (s : SumState) : Except Q15Axpy.Trap SumState :=
  match s.array[s.i]? with
  | none => .error .outOfBounds
  | some x =>
    .ok { s with sum := Q15Axpy.wrapSigned 64 (s.sum + x), i := Q15Axpy.sizeAdd s.i 1 }

/-- The `for` loop of line 7, for at most `fuel` passes. -/
def sum_loop (n : Nat) : Nat → SumState → Except Q15Axpy.Trap SumState
  | 0, s => if s.i < n then .error .outOfFuel else .ok s
  | fuel + 1, s =>
    if s.i < n then
      match sum_body s with
      | .ok s1 => sum_loop n fuel s1
      | .error e => .error e
    else .ok s

/-- The function `sum_array(array, n)`: the array after the call and the value
returned. The loop makes `n` passes at most. -/
def sum_array (array : List Int) (n : Nat) : Except Q15Axpy.Trap (List Int × Int) :=
  match sum_loop n n { array := array, sum := 0, i := 0 } with
  | .ok s => .ok (s.array, s.sum)
  | .error e => .error e

/-- The driver `main` of lines 14 to 17: the number it prints. -/
def main : Except Q15Axpy.Trap Int :=
  match sum_array [1, 2, 3, 4, 5, 6, 7, 8] 8 with
  | .ok r => .ok r.2
  | .error e => .error e

end SumArray

namespace Q15Axpy

/-! ## Memory lemmas -/

theorem writeLanes_length (mem : List Int) (i : Nat) (v : List Int)
    (hb : i + v.length ≤ mem.length) : (writeLanes mem i v).length = mem.length := by
  simp only [writeLanes, List.length_append, List.length_take, List.length_drop]
  omega

theorem writeLanes_getElem? (mem : List Int) (i : Nat) (v : List Int)
    (hb : i + v.length ≤ mem.length) (j : Nat) :
    (writeLanes mem i v)[j]? =
      if i ≤ j ∧ j < i + v.length then v[j - i]? else mem[j]? := by
  have hlen : (mem.take i).length = i := by
    rw [List.length_take]; omega
  unfold writeLanes
  by_cases h1 : j < i
  · rw [if_neg (by omega), List.append_assoc, List.getElem?_append_left (by omega),
      List.getElem?_take_of_lt h1]
  · by_cases h2 : j < i + v.length
    · rw [if_pos ⟨by omega, h2⟩, List.append_assoc, List.getElem?_append_right (by omega),
        hlen, List.getElem?_append_left (by omega)]
    · rw [if_neg (by omega), List.getElem?_append_right
        (by rw [List.length_append, hlen]; omega), List.getElem?_drop,
        List.length_append, hlen]
      congr 1
      omega

/-! ## One pass through the loop body -/

/-- The lanes the kernel computes for the chunk of `vl` lanes at cursor `i`. -/
theorem chunk_lanes (a b : List Int) (alpha : Int) (i vl : Nat) :
    vnclip_wx_i16m4
        (vwmacc_vx_i32m8 (vsext_vf2_i32m8 ((a.drop i).take vl) vl) alpha
          ((b.drop i).take vl) vl) 0 VXRM.rdn vl
      = ((List.zipWith (laneOut alpha) a b).drop i).take vl := by
  unfold vnclip_wx_i16m4 vwmacc_vx_i32m8 vsext_vf2_i32m8
  simp only [List.take_take, Nat.min_self, ← List.map_take, List.zipWith_map_left,
    ← List.take_zipWith, ← List.drop_zipWith]
  rw [List.map_take, List.map_drop, List.map_zipWith]
  rfl

/-- The state after a pass, spelled out: `sat_vd` is the chunk of the lane-wise
results, the cursor moves by `vl`, and the retry store is issued when the `vl`
register reads less than `vl` after the first store. -/
theorem iteration_eq (h : Hart) (n alpha : Int) (s : State) (vl : Nat)
    (hvl : vl = vsetvl_e16m4 h (requested s.i n))
    (ha : s.i + vl ≤ s.a.length) (hb : s.i + vl ≤ s.b.length)
    (hy : s.i + vl ≤ s.y.length) :
    iteration h n alpha s = .ok
      (if read_vl h s.i vl < vl then
        { s with
          y := writeLanes
                (writeLanes s.y s.i
                  ((((List.zipWith (laneOut alpha) s.a s.b).drop s.i).take vl).take
                    (min (h.committed s.i false vl) vl)))
                s.i ((((List.zipWith (laneOut alpha) s.a s.b).drop s.i).take vl).take
                    (min (h.committed s.i true vl) vl))
          i := sizeAdd s.i vl
          stores := s.stores ++
            [(s.i, read_vl h s.i vl), (s.i, min (h.committed s.i true vl) vl)] }
      else
        { s with
          y := writeLanes s.y s.i
                ((((List.zipWith (laneOut alpha) s.a s.b).drop s.i).take vl).take
                  (min (h.committed s.i false vl) vl))
          i := sizeAdd s.i vl
          stores := s.stores ++ [(s.i, read_vl h s.i vl)] }) := by
  have hre : vsetvl_e16m4 h vl = vl := by
    rw [hvl]; unfold vsetvl_e16m4; omega
  have hlenZ : (List.zipWith (laneOut alpha) s.a s.b).length = min s.a.length s.b.length :=
    List.length_zipWith _ _ _
  have hw : (writeLanes s.y s.i
      ((((List.zipWith (laneOut alpha) s.a s.b).drop s.i).take vl).take
        (min (h.committed s.i false vl) vl))).length = s.y.length := by
    apply writeLanes_length
    simp only [List.length_take, List.length_drop, hlenZ]
    omega
  unfold iteration
  simp only [← hvl, vle16_v_i16m4, if_pos ha, if_pos hb, chunk_lanes, vse16_v_i16m4,
    if_pos hy, hre, hw]
  split <;> rfl

/-! ## Lane arithmetic -/

theorem wrapSigned16_of_inInt16 (x : Int) (hx : InInt16 x) : wrapSigned 16 x = x := by
  obtain ⟨h1, h2⟩ := hx
  unfold wrapSigned
  norm_num
  rw [Int.emod_eq_of_lt (by omega) (by omega)]
  omega

theorem wrapSigned32_of_inInt32 (x : Int) (hx : InInt32 x) : wrapSigned 32 x = x := by
  obtain ⟨h1, h2⟩ := hx
  unfold wrapSigned
  norm_num
  rw [Int.emod_eq_of_lt (by omega) (by omega)]
  omega

/-- A 16 by 16 bit signed product plus a 16 bit signed value fits 32 bits. -/
theorem mul_add_inInt32 (p q r : Int) (hp : InInt16 p) (hq : InInt16 q) (hr : InInt16 r) :
    InInt32 (p * q + r) := by
  obtain ⟨hp1, hp2⟩ := hp
  obtain ⟨hq1, hq2⟩ := hq
  obtain ⟨hr1, hr2⟩ := hr
  constructor
  · nlinarith [mul_nonneg (sub_nonneg.2 hp1) (sub_nonneg.2 hq2),
      mul_nonneg (sub_nonneg.2 hp2) (sub_nonneg.2 hq1)]
  · nlinarith [mul_nonneg (sub_nonneg.2 hp1) (sub_nonneg.2 hq1),
      mul_nonneg (sub_nonneg.2 hp2) (sub_nonneg.2 hq2)]

theorem roundoff_signed_zero (m : VXRM) (v : Int) : roundoff_signed m v 0 = v := by
  cases m <;> simp [roundoff_signed, roundIncrement, lowBits]

theorem vwmacc_lane_exact (vd rs1 vs2 : Int) (hd : InInt16 vd) (h1 : InInt16 rs1)
    (h2 : InInt16 vs2) : vwmacc_lane vd rs1 vs2 = rs1 * vs2 + vd := by
  unfold vwmacc_lane
  rw [wrapSigned16_of_inInt16 _ h1, wrapSigned16_of_inInt16 _ h2,
    wrapSigned32_of_inInt32 _ (mul_add_inInt32 _ _ _ h1 h2 hd)]

/-- On 16 bit inputs the value stored for a pair of lanes is the clamped exact
`x + alpha * z`. -/
theorem laneOut_eq (alpha x z : Int) (hα : InInt16 alpha) (hx : InInt16 x)
    (hz : InInt16 z) : laneOut alpha x z = sat_axpy alpha x z := by
  unfold laneOut sat_axpy vnclip_lane vsext_lane
  rw [wrapSigned16_of_inInt16 _ hx, vwmacc_lane_exact _ _ _ hx hα hz, Nat.zero_mod,
    roundoff_signed_zero, add_comm]

/-! ## `size_t` arithmetic for a non-negative `n` -/

theorem toSizeT_natCast (m : Nat) (hm : m < 2 ^ 64) : toSizeT (m : Int) = m := by
  unfold toSizeT
  rw [Int.emod_eq_of_lt (by omega) (by exact_mod_cast hm)]
  simp

theorem requested_natCast (m i : Nat) (hm : m < 2 ^ 64) (hi : i ≤ m) :
    requested i (m : Int) = m - i := by
  unfold requested sizeSub
  rw [toSizeT_natCast m hm]
  omega

theorem loopGuard_natCast (m i : Nat) (hm : m < 2 ^ 64) :
    loopGuard i (m : Int) = decide (i < m) := by
  unfold loopGuard
  rw [toSizeT_natCast m hm]

theorem sizeAdd_small (i v : Nat) (hs : i + v < 2 ^ 64) : sizeAdd i v = i + v := by
  unfold sizeAdd
  exact Nat.mod_eq_of_lt hs

/-! ## Effect of one store of a chunk -/

theorem chunk_take_length_le (Z : List Int) (i vl c : Nat) :
    (((Z.drop i).take vl).take c).length ≤ vl := by
  simp only [List.length_take, List.length_drop]
  omega

theorem chunk_take_length (Z : List Int) (i vl c : Nat) (hZ : i + vl ≤ Z.length)
    (hc : vl ≤ c) : (((Z.drop i).take vl).take c).length = vl := by
  simp only [List.length_take, List.length_drop]
  omega

theorem write_chunk_length (y Z : List Int) (i vl c : Nat) (hy : i + vl ≤ y.length) :
    (writeLanes y i (((Z.drop i).take vl).take c)).length = y.length := by
  apply writeLanes_length
  have := chunk_take_length_le Z i vl c
  omega

theorem write_chunk_frame (y Z : List Int) (i vl c j : Nat) (hy : i + vl ≤ y.length)
    (hj : j < i ∨ i + vl ≤ j) :
    (writeLanes y i (((Z.drop i).take vl).take c))[j]? = y[j]? := by
  have hle := chunk_take_length_le Z i vl c
  rw [writeLanes_getElem? _ _ _ (by omega), if_neg (by omega)]

theorem write_chunk_full (y Z : List Int) (i vl c j : Nat) (hy : i + vl ≤ y.length)
    (hZ : i + vl ≤ Z.length) (hc : vl ≤ c) (h1 : i ≤ j) (h2 : j < i + vl) :
    (writeLanes y i (((Z.drop i).take vl).take c))[j]? = Z[j]? := by
  have hlen := chunk_take_length Z i vl c hZ hc
  rw [writeLanes_getElem? _ _ _ (by omega), if_pos ⟨h1, by omega⟩,
    List.getElem?_take_of_lt (by omega), List.getElem?_take_of_lt (by omega),
    List.getElem?_drop]
  congr 1
  omega

/-- What one pass does to a state whose cursor is within `n` and whose buffers
hold `n` cells: it returns a state, the cursor moves by `min VLMAX (n - i)`, the
inputs stay, `y` changes only inside the chunk, and the chunk holds the
lane-wise results provided the last store of the pass committed in full. -/
theorem iteration_spec (h : Hart) (m : Nat) (alpha : Int) (s : State) (hm : m < 2 ^ 64)
    (hi : s.i ≤ m) (ha : m ≤ s.a.length) (hb : m ≤ s.b.length) (hy : m ≤ s.y.length) :
    ∃ s1, iteration h (m : Int) alpha s = .ok s1 ∧ s1.a = s.a ∧ s1.b = s.b ∧
      s1.i = s.i + min h.VLMAX (m - s.i) ∧ s1.y.length = s.y.length ∧
      (∀ j, j < s.i ∨ s.i + min h.VLMAX (m - s.i) ≤ j → s1.y[j]? = s.y[j]?) ∧
      (h.RetryCommits → ∀ j, s.i ≤ j → j < s.i + min h.VLMAX (m - s.i) →
        s1.y[j]? = (List.zipWith (laneOut alpha) s.a s.b)[j]?) ∧
      s1.stores = s.stores ++
        (if read_vl h s.i (min h.VLMAX (m - s.i)) < min h.VLMAX (m - s.i) then
          [(s.i, read_vl h s.i (min h.VLMAX (m - s.i))),
           (s.i, min (h.committed s.i true (min h.VLMAX (m - s.i)))
                  (min h.VLMAX (m - s.i)))]
        else [(s.i, read_vl h s.i (min h.VLMAX (m - s.i)))]) := by
  have hvl : min h.VLMAX (m - s.i) = vsetvl_e16m4 h (requested s.i (m : Int)) := by
    rw [requested_natCast m s.i hm hi]; rfl
  have hle : s.i + min h.VLMAX (m - s.i) ≤ m := by omega
  have hZ : s.i + min h.VLMAX (m - s.i) ≤ (List.zipWith (laneOut alpha) s.a s.b).length := by
    rw [List.length_zipWith]; omega
  rw [iteration_eq h (m : Int) alpha s _ hvl (by omega) (by omega) (by omega)]
  generalize min h.VLMAX (m - s.i) = vl at *
  by_cases hr : read_vl h s.i vl < vl
  · rw [if_pos hr, if_pos hr]
    refine ⟨_, rfl, rfl, rfl, sizeAdd_small _ _ (by omega), ?_, ?_, ?_, rfl⟩
    · show (writeLanes (writeLanes s.y s.i _) s.i _).length = s.y.length
      rw [write_chunk_length _ _ _ _ _ (by rw [write_chunk_length _ _ _ _ _ (by omega)]; omega),
        write_chunk_length _ _ _ _ _ (by omega)]
    · intro j hj
      show (writeLanes (writeLanes s.y s.i _) s.i _)[j]? = s.y[j]?
      rw [write_chunk_frame _ _ _ _ _ _
          (by rw [write_chunk_length _ _ _ _ _ (by omega)]; omega) hj,
        write_chunk_frame _ _ _ _ _ _ (by omega) hj]
    · intro hrc j h1 h2
      show (writeLanes (writeLanes s.y s.i _) s.i _)[j]? = _
      have hc := hrc s.i vl
      exact write_chunk_full _ _ _ _ _ _
        (by rw [write_chunk_length _ _ _ _ _ (by omega)]; omega) hZ (by omega) h1 h2
  · rw [if_neg hr, if_neg hr]
    have hfull : vl ≤ h.committed s.i false vl := by
      unfold read_vl at hr; omega
    refine ⟨_, rfl, rfl, rfl, sizeAdd_small _ _ (by omega), ?_, ?_, ?_, rfl⟩
    · exact write_chunk_length _ _ _ _ _ (by omega)
    · intro j hj
      exact write_chunk_frame _ _ _ _ _ _ (by omega) hj
    · intro _ j h1 h2
      exact write_chunk_full _ _ _ _ _ _ (by omega) hZ (by omega) h1 h2

/-! ## The loop -/

theorem loop_exit (h : Hart) (n alpha : Int) (fuel : Nat) (s : State)
    (hg : loopGuard s.i n = false) : loop h n alpha fuel s = .ok s := by
  cases fuel <;> simp [loop, hg]

theorem loop_step (h : Hart) (n alpha : Int) (fuel : Nat) (s s1 : State)
    (hg : loopGuard s.i n = true) (hs : iteration h n alpha s = .ok s1) :
    loop h n alpha (fuel + 1) s = loop h n alpha fuel s1 := by
  simp [loop, hg, hs]

/-- Loop invariant: from a cursor within `n`, with `n - i` passes of fuel or
more, the loop returns with the cursor at `n`; the inputs stay, `y` keeps its
length and its cells outside `[i, n)`, and on a hart whose retry stores commit
the cells of `[i, n)` hold the lane-wise results. -/
theorem loop_spec (h : Hart) (hV : 1 ≤ h.VLMAX) (m : Nat) (alpha : Int) (hm : m < 2 ^ 64) :
    ∀ (fuel : Nat) (s : State), s.i ≤ m → m - s.i ≤ fuel → m ≤ s.a.length →
      m ≤ s.b.length → m ≤ s.y.length →
      ∃ s2, loop h (m : Int) alpha fuel s = .ok s2 ∧ s2.i = m ∧ s2.a = s.a ∧ s2.b = s.b ∧
        s2.y.length = s.y.length ∧
        (∀ j, j < s.i ∨ m ≤ j → s2.y[j]? = s.y[j]?) ∧
        (h.RetryCommits → ∀ j, s.i ≤ j → j < m →
          s2.y[j]? = (List.zipWith (laneOut alpha) s.a s.b)[j]?) := by
  intro fuel
  induction fuel with
  | zero =>
    intro s hi hf _ _ _
    have hg : loopGuard s.i (m : Int) = false := by
      rw [loopGuard_natCast m s.i hm]; simp; omega
    exact ⟨s, loop_exit h _ alpha 0 s hg, by omega, rfl, rfl, rfl, fun _ _ => rfl,
      fun _ j h1 h2 => by omega⟩
  | succ fuel ih =>
    intro s hi hf ha hb hy
    by_cases hlt : s.i < m
    · have hg : loopGuard s.i (m : Int) = true := by
        rw [loopGuard_natCast m s.i hm]; simpa using hlt
      obtain ⟨s1, hs1, ha1, hb1, hi1, hl1, hfr1, hc1, _⟩ :=
        iteration_spec h m alpha s hm hi ha hb hy
      obtain ⟨s2, hs2, hi2, ha2, hb2, hl2, hfr2, hc2⟩ :=
        ih s1 (by omega) (by omega) (by rw [ha1]; exact ha) (by rw [hb1]; exact hb)
          (by rw [hl1]; exact hy)
      refine ⟨s2, by rw [loop_step h _ alpha fuel s s1 hg hs1]; exact hs2, hi2,
        by rw [ha2, ha1], by rw [hb2, hb1], by rw [hl2, hl1], ?_, ?_⟩
      · intro j hj
        rw [hfr2 j (by omega), hfr1 j (by omega)]
      · intro hrc j h1 h2
        by_cases hj : j < s1.i
        · rw [hfr2 j (Or.inl hj)]
          exact hc1 hrc j h1 (by omega)
        · rw [hc2 hrc j (by omega) h2, ha1, hb1]
    · have hg : loopGuard s.i (m : Int) = false := by
        rw [loopGuard_natCast m s.i hm]; simpa using hlt
      exact ⟨s, loop_exit h _ alpha _ s hg, by omega, rfl, rfl, rfl, fun _ _ => rfl,
        fun _ j h1 h2 => by omega⟩

/-- The run of the kernel for a non-negative `n`, stated for `n` as a natural
number. -/
theorem q15_axpy_rvv_spec (h : Hart) (hV : 1 ≤ h.VLMAX) (a b y : List Int) (m : Nat)
    (alpha : Int) (hm : m < 2 ^ 64) (ha : m ≤ a.length) (hb : m ≤ b.length)
    (hy : m ≤ y.length) :
    ∃ s2, q15_axpy_rvv h a b y (m : Int) alpha = .ok s2 ∧ s2.i = m ∧ s2.a = a ∧ s2.b = b ∧
      s2.y.length = y.length ∧
      (∀ j, m ≤ j → s2.y[j]? = y[j]?) ∧
      (h.RetryCommits → ∀ j, j < m → s2.y[j]? = (List.zipWith (laneOut alpha) a b)[j]?) := by
  obtain ⟨s2, hs2, hi2, ha2, hb2, hl2, hfr2, hc2⟩ :=
    loop_spec h hV m alpha hm (toSizeT (m : Int)) (initial a b y) (Nat.zero_le _)
      (by rw [toSizeT_natCast m hm]; exact Nat.sub_le _ _) ha hb hy
  exact ⟨s2, hs2, hi2, ha2, hb2, hl2, fun j hj => hfr2 j (Or.inr hj),
    fun hrc j hj => hc2 hrc j (Nat.zero_le _) hj⟩

/-! ## Reading the results -/

theorem zipWith_laneOut_getElem? (a b : List Int) (alpha : Int) (j : Nat)
    (ha : j < a.length) (hb : j < b.length) :
    ∃ x z, a[j]? = some x ∧ b[j]? = some z ∧
      (List.zipWith (laneOut alpha) a b)[j]? = some (laneOut alpha x z) := by
  refine ⟨a[j], b[j], List.getElem?_eq_getElem ha, List.getElem?_eq_getElem hb, ?_⟩
  rw [List.getElem?_zipWith, List.getElem?_eq_getElem ha, List.getElem?_eq_getElem hb]

theorem scalarStep_length (a b : List Int) (alpha : Int) (acc : List Int) (i : Nat) :
    (scalarStep a b alpha acc i).length = acc.length := by
  unfold scalarStep
  split
  · rw [List.length_set]
  · rfl

theorem scalarStep_some (a b : List Int) (alpha : Int) (acc : List Int) (i : Nat)
    (x z : Int) (hx : a[i]? = some x) (hz : b[i]? = some z) :
    scalarStep a b alpha acc i = acc.set i (laneOut alpha x z) := by
  unfold scalarStep
  rw [hx, hz]

theorem q15_axpy_scalar_succ (a b y : List Int) (alpha : Int) (n : Nat) :
    q15_axpy_scalar a b y (n + 1) alpha =
      scalarStep a b alpha (q15_axpy_scalar a b y n alpha) n := by
  unfold q15_axpy_scalar
  rw [List.range_succ, List.foldl_append, List.foldl_cons, List.foldl_nil]

theorem q15_axpy_scalar_length (a b y : List Int) (alpha : Int) (n : Nat) :
    (q15_axpy_scalar a b y n alpha).length = y.length := by
  induction n with
  | zero => rfl
  | succ n ih => rw [q15_axpy_scalar_succ, scalarStep_length, ih]

theorem q15_axpy_scalar_getElem? (a b y : List Int) (alpha : Int) (n : Nat)
    (ha : n ≤ a.length) (hb : n ≤ b.length) (hy : n ≤ y.length) (j : Nat) :
    (q15_axpy_scalar a b y n alpha)[j]? =
      if j < n then (List.zipWith (laneOut alpha) a b)[j]? else y[j]? := by
  induction n with
  | zero => simp [q15_axpy_scalar]
  | succ n ih =>
    have ih1 := ih (by omega) (by omega) (by omega)
    have hlen := q15_axpy_scalar_length a b y alpha n
    obtain ⟨x, z, hx, hz, hxz⟩ := zipWith_laneOut_getElem? a b alpha n (by omega) (by omega)
    rw [q15_axpy_scalar_succ, scalarStep_some a b alpha _ n x z hx hz, List.getElem?_set,
      hlen]
    by_cases hj : n = j
    · subst hj
      rw [if_pos rfl, if_pos (by omega), if_pos (by omega), hxz]
    · rw [if_neg hj, ih1]
      by_cases hj2 : j < n
      · rw [if_pos hj2, if_pos (by omega)]
      · rw [if_neg hj2, if_neg (by omega)]

/-- The final `y` of a run on a hart whose retry stores commit is the result of
the scalar loop. -/
theorem q15_axpy_rvv_eq_scalar (h : Hart) (hV : 1 ≤ h.VLMAX) (hrc : h.RetryCommits)
    (a b y : List Int) (m : Nat) (alpha : Int) (hm : m < 2 ^ 64) (ha : m ≤ a.length)
    (hb : m ≤ b.length) (hy : m ≤ y.length) :
    ∃ s, q15_axpy_rvv h a b y (m : Int) alpha = .ok s ∧
      s.y = q15_axpy_scalar a b y m alpha := by
  obtain ⟨s, hs, _, _, _, _, hfr, hc⟩ := q15_axpy_rvv_spec h hV a b y m alpha hm ha hb hy
  refine ⟨s, hs, List.ext_getElem? fun j => ?_⟩
  rw [q15_axpy_scalar_getElem? a b y alpha m ha hb hy j]
  by_cases hj : j < m
  · rw [if_pos hj, hc hrc j hj]
  · rw [if_neg hj, hfr j (by omega)]

/-- For a non-negative `int` the argument is a natural number below `2 ^ 64`. -/
theorem int_arg_cases (n : Int) (hn0 : 0 ≤ n) (hn : n ≤ 2147483647) :
    ∃ m : Nat, n = (m : Int) ∧ m < 2 ^ 64 := by
  obtain ⟨m, rfl⟩ := Int.eq_ofNat_of_zero_le hn0
  exact ⟨m, rfl, by omega⟩

/-! ## The claims -/

/-- C1, as stated, fails: on `a=[1,2,3]`, `b=[10,20,30]`, `alpha=2`, `n=3` the
kernel returns `y=[21,42,63]`, which is neither `[12,24,36]` nor, at index 0,
`clamp(a[0]*alpha + b[0])`. -/
theorem q15_axpy_rvv_not_a_times_alpha_plus_b :
    q15_axpy_rvv (Hart.standard 4) [1, 2, 3] [10, 20, 30] [0, 0, 0] 3 2
        = .ok ⟨[1, 2, 3], [10, 20, 30], [21, 42, 63], 3, [(0, 3)]⟩ ∧
      ([21, 42, 63] : List Int) ≠ [12, 24, 36] ∧
      clamp (1 * 2 + 10) (-32768) 32767 ≠ 21 :=
  ⟨rfl, by decide, by decide⟩

/-- C1 (amended): for every `n >= 0`, buffers of at least `n` cells holding
16 bit values, every 16 bit `alpha` and every `i < n`, the run returns and
`y[i] = clamp(a[i] + alpha * b[i], -32768, 32767)` in exact integers; on
`a=[1,2,3]`, `b=[10,20,30]`, `alpha=2`, `n=3` this gives `y=[21,42,63]`. -/
theorem q15_axpy_rvv_output (h : Hart) (hV : 1 ≤ h.VLMAX) (hrc : h.RetryCommits)
    (a b y : List Int) (n alpha : Int) (hn0 : 0 ≤ n) (hn : n ≤ 2147483647)
    (ha : n ≤ a.length) (hb : n ≤ b.length) (hy : n ≤ y.length)
    (hα : InInt16 alpha) (hA : ∀ x ∈ a, InInt16 x) (hB : ∀ z ∈ b, InInt16 z) :
    (∃ s, q15_axpy_rvv h a b y n alpha = .ok s ∧
      ∀ i : Nat, (i : Int) < n → ∃ x z, a[i]? = some x ∧ b[i]? = some z ∧
        s.y[i]? = some (clamp (x + alpha * z) (-32768) 32767)) ∧
    (∃ s, q15_axpy_rvv h [1, 2, 3] [10, 20, 30] [0, 0, 0] 3 2 = .ok s ∧
      s.y = [21, 42, 63]) := by
  constructor
  · obtain ⟨m, rfl, hm⟩ := int_arg_cases n hn0 hn
    obtain ⟨s, hs, _, _, _, _, _, hc⟩ :=
      q15_axpy_rvv_spec h hV a b y m alpha hm (by omega) (by omega) (by omega)
    refine ⟨s, hs, fun i hi => ?_⟩
    obtain ⟨x, z, hx, hz, hxz⟩ :=
      zipWith_laneOut_getElem? a b alpha i (by omega) (by omega)
    refine ⟨x, z, hx, hz, ?_⟩
    rw [hc hrc i (by omega), hxz,
      laneOut_eq alpha x z hα (hA x (List.getElem?_mem hx)) (hB z (List.getElem?_mem hz))]
    rfl
  · obtain ⟨s, hs, hsy⟩ := q15_axpy_rvv_eq_scalar h hV hrc [1, 2, 3] [10, 20, 30] [0, 0, 0]
      3 2 (by norm_num) (by simp) (by simp) (by simp)
    exact ⟨s, hs, by rw [hsy]; rfl⟩

/-- Witness of C1 (amended) on the example of the specification, VLMAX = 4. -/
theorem q15_axpy_rvv_output_witness :
    (∃ s, q15_axpy_rvv (Hart.standard 4) [1, 2, 3] [10, 20, 30] [0, 0, 0] 3 2 = .ok s ∧
      ∀ i : Nat, (i : Int) < 3 → ∃ x z, [1, 2, 3][i]? = some x ∧
        [10, 20, 30][i]? = some z ∧
        s.y[i]? = some (clamp (x + 2 * z) (-32768) 32767)) ∧
    (∃ s, q15_axpy_rvv (Hart.standard 4) [1, 2, 3] [10, 20, 30] [0, 0, 0] 3 2 = .ok s ∧
      s.y = [21, 42, 63]) :=
  q15_axpy_rvv_output (Hart.standard 4) (by decide) (fun _ _ => le_refl _)
    [1, 2, 3] [10, 20, 30] [0, 0, 0] 3 2 (by decide) (by decide) (by decide) (by decide)
    (by decide) (by decide) (by decide) (by decide)

/-- C2: chunking transparency. For any two harts with `VLMAX >= 1` (in
particular lane counts 1, 4 and `n`) the runs return the same `y`, and that `y`
is the result of the scalar element-by-element loop with the same per-lane
arithmetic. -/
theorem q15_axpy_rvv_chunking_transparent (h1 h2 : Hart) (hV1 : 1 ≤ h1.VLMAX)
    (hV2 : 1 ≤ h2.VLMAX) (hrc1 : h1.RetryCommits) (hrc2 : h2.RetryCommits)
    (a b y : List Int) (n alpha : Int) (hn0 : 0 ≤ n) (hn : n ≤ 2147483647)
    (ha : n ≤ a.length) (hb : n ≤ b.length) (hy : n ≤ y.length) :
    ∃ s1 s2, q15_axpy_rvv h1 a b y n alpha = .ok s1 ∧
      q15_axpy_rvv h2 a b y n alpha = .ok s2 ∧ s1.y = s2.y ∧
      s1.y = q15_axpy_scalar a b y n.toNat alpha := by
  obtain ⟨m, rfl, hm⟩ := int_arg_cases n hn0 hn
  obtain ⟨s1, hs1, hy1⟩ :=
    q15_axpy_rvv_eq_scalar h1 hV1 hrc1 a b y m alpha hm (by omega) (by omega) (by omega)
  obtain ⟨s2, hs2, hy2⟩ :=
    q15_axpy_rvv_eq_scalar h2 hV2 hrc2 a b y m alpha hm (by omega) (by omega) (by omega)
  exact ⟨s1, s2, hs1, hs2, by rw [hy1, hy2], by rw [hy1, Int.toNat_natCast]⟩

/-- Witness of C2: lane counts 1 and 4 on five elements. -/
theorem q15_axpy_rvv_chunking_transparent_witness :
    ∃ s1 s2, q15_axpy_rvv (Hart.standard 1) [1, 2, 3, 4, 5] [10, 20, 30, 40, 50]
        [0, 0, 0, 0, 0, 9] 5 2 = .ok s1 ∧
      q15_axpy_rvv (Hart.standard 4) [1, 2, 3, 4, 5] [10, 20, 30, 40, 50]
        [0, 0, 0, 0, 0, 9] 5 2 = .ok s2 ∧ s1.y = s2.y ∧
      s1.y = q15_axpy_scalar [1, 2, 3, 4, 5] [10, 20, 30, 40, 50] [0, 0, 0, 0, 0, 9]
        (5 : Int).toNat 2 :=
  q15_axpy_rvv_chunking_transparent (Hart.standard 1) (Hart.standard 4) (by decide)
    (by decide) (fun _ _ => le_refl _) (fun _ _ => le_refl _) [1, 2, 3, 4, 5]
    [10, 20, 30, 40, 50] [0, 0, 0, 0, 0, 9] 5 2 (by decide) (by decide) (by decide)
    (by decide) (by decide)

/-- C3: saturation boundary. With `alpha = 32767`, an element with
`a[i] = b[i] = 32767` is stored as `32767` and an element with
`a[j] = b[j] = -32768` as `-32768`; these are not the wrapped low 16 bits of the
exact sums. -/
theorem q15_axpy_rvv_saturation_boundary (h : Hart) (hV : 1 ≤ h.VLMAX)
    (hrc : h.RetryCommits) (a b y : List Int) (n : Int) (hn0 : 0 ≤ n)
    (hn : n ≤ 2147483647) (ha : n ≤ a.length) (hb : n ≤ b.length) (hy : n ≤ y.length)
    (i j : Nat) (hi : (i : Int) < n) (hj : (j : Int) < n) :
    ∃ s, q15_axpy_rvv h a b y n 32767 = .ok s ∧
      (a[i]? = some 32767 → b[i]? = some 32767 → s.y[i]? = some 32767) ∧
      (a[j]? = some (-32768) → b[j]? = some (-32768) → s.y[j]? = some (-32768)) ∧
      wrapSigned 16 (32767 + 32767 * 32767) ≠ 32767 ∧
      wrapSigned 16 (-32768 + 32767 * (-32768)) ≠ -32768 := by
  obtain ⟨m, rfl, hm⟩ := int_arg_cases n hn0 hn
  obtain ⟨s, hs, _, _, _, _, _, hc⟩ :=
    q15_axpy_rvv_spec h hV a b y m 32767 hm (by omega) (by omega) (by omega)
  refine ⟨s, hs, ?_, ?_, by decide, by decide⟩
  · intro hx hz
    rw [hc hrc i (by omega), List.getElem?_zipWith, hx, hz]
    rfl
  · intro hx hz
    rw [hc hrc j (by omega), List.getElem?_zipWith, hx, hz]
    rfl

/-- Witness of C3: both boundary elements in one run of two lanes. -/
theorem q15_axpy_rvv_saturation_boundary_witness :
    ∃ s, q15_axpy_rvv (Hart.standard 4) [32767, -32768] [32767, -32768] [0, 0] 2 32767
        = .ok s ∧ s.y[0]? = some 32767 ∧ s.y[1]? = some (-32768) := by
  obtain ⟨s, hs, hpos, hneg, _⟩ :=
    q15_axpy_rvv_saturation_boundary (Hart.standard 4) (by decide) (fun _ _ => le_refl _)
      [32767, -32768] [32767, -32768] [0, 0] 2 (by decide) (by decide) (by decide)
      (by decide) (by decide) 0 1 (by decide) (by decide)
  exact ⟨s, hs, hpos rfl rfl, hneg rfl rfl⟩

/-- C4: for `n = 0` the loop guard is false at once, so the body is never
entered: the run returns the entry state, with `y` as it was and no store
logged, on every hart and for every amount of fuel. -/
theorem q15_axpy_rvv_zero_length (h : Hart) (a b y : List Int) (alpha : Int) :
    loopGuard 0 0 = false ∧
      q15_axpy_rvv h a b y 0 alpha = .ok ⟨a, b, y, 0, []⟩ ∧
      ∀ fuel, loop h 0 alpha fuel (initial a b y) = .ok ⟨a, b, y, 0, []⟩ :=
  ⟨rfl, loop_exit h 0 alpha _ (initial a b y) rfl,
    fun fuel => loop_exit h 0 alpha fuel (initial a b y) rfl⟩

/-- C5: frame. For `0 <= n` not above the lengths of `a`, `b`, `y`, on any hart
with `VLMAX >= 1` (whatever its stores commit) the run returns, `a` and `b` are
unchanged, `y` keeps its length and every `y[j]` with `j >= n` keeps its value. -/
theorem q15_axpy_rvv_frame (h : Hart) (hV : 1 ≤ h.VLMAX) (a b y : List Int)
    (n alpha : Int) (hn0 : 0 ≤ n) (hn : n ≤ 2147483647) (ha : n ≤ a.length)
    (hb : n ≤ b.length) (hy : n ≤ y.length) :
    ∃ s, q15_axpy_rvv h a b y n alpha = .ok s ∧ s.a = a ∧ s.b = b ∧
      s.y.length = y.length ∧ ∀ j : Nat, n ≤ (j : Int) → s.y[j]? = y[j]? := by
  obtain ⟨m, rfl, hm⟩ := int_arg_cases n hn0 hn
  obtain ⟨s, hs, _, hsa, hsb, hl, hfr, _⟩ :=
    q15_axpy_rvv_spec h hV a b y m alpha hm (by omega) (by omega) (by omega)
  exact ⟨s, hs, hsa, hsb, hl, fun j hj => hfr j (by omega)⟩

/-- Witness of C5: three of five cells of `y` are in range, on a hart whose
stores commit a single lane. -/
theorem q15_axpy_rvv_frame_witness :
    ∃ s, q15_axpy_rvv ⟨2, fun _ _ _ => 1⟩ [1, 2, 3] [4, 5, 6] [7, 8, 9, 10, 11] 3 2
        = .ok s ∧ s.a = [1, 2, 3] ∧ s.b = [4, 5, 6] ∧
      s.y.length = ([7, 8, 9, 10, 11] : List Int).length ∧
      ∀ j : Nat, (3 : Int) ≤ (j : Int) → s.y[j]? = ([7, 8, 9, 10, 11] : List Int)[j]? :=
  q15_axpy_rvv_frame ⟨2, fun _ _ _ => 1⟩ (by decide) [1, 2, 3] [4, 5, 6]
    [7, 8, 9, 10, 11] 3 2 (by decide) (by decide) (by decide) (by decide) (by decide)

/-- C6, as stated, fails: the source re-issues the store once and does not read
the lane count again. With `VLMAX = 4`, `n = 6`, a first store at cursor 0 that
commits 2 lanes and a retry that commits 3, `trap_vl = 2 < 4`, the cursor moves
on by 4 and `y[3]` keeps its old value: `y = [4,5,6,0,8,9]`, while the run
without a reduced commit gives `[4,5,6,7,8,9]`. -/
theorem short_commit_retry_may_leave_gap :
    read_vl (Hart.shortRetryAt 4 0 2 3) 0 4 < 4 ∧
      q15_axpy_rvv (Hart.shortRetryAt 4 0 2 3) [1, 2, 3, 4, 5, 6] [1, 1, 1, 1, 1, 1]
          [0, 0, 0, 0, 0, 0] 6 3
        = .ok ⟨[1, 2, 3, 4, 5, 6], [1, 1, 1, 1, 1, 1], [4, 5, 6, 0, 8, 9], 6,
            [(0, 2), (0, 3), (4, 2)]⟩ ∧
      q15_axpy_rvv (Hart.standard 4) [1, 2, 3, 4, 5, 6] [1, 1, 1, 1, 1, 1]
          [0, 0, 0, 0, 0, 0] 6 3
        = .ok ⟨[1, 2, 3, 4, 5, 6], [1, 1, 1, 1, 1, 1], [4, 5, 6, 7, 8, 9], 6,
            [(0, 4), (4, 2)]⟩ ∧
      ([4, 5, 6, 0, 8, 9] : List Int) ≠ [4, 5, 6, 7, 8, 9] :=
  ⟨by decide, rfl, rfl, by decide⟩

/-- C6 (amended): short-chunk path. On a hart whose first store of a chunk may
commit any number of lanes and whose re-issued store commits all its lanes, the
run returns the same `y` and cursor as the run on the hart with the same `VLMAX`
on which no reduced commit happens, and every index below `n` holds its lane
result. -/
theorem q15_axpy_rvv_short_commit (h : Hart) (hV : 1 ≤ h.VLMAX) (hrc : h.RetryCommits)
    (a b y : List Int) (n alpha : Int) (hn0 : 0 ≤ n) (hn : n ≤ 2147483647)
    (ha : n ≤ a.length) (hb : n ≤ b.length) (hy : n ≤ y.length) :
    ∃ s s0, q15_axpy_rvv h a b y n alpha = .ok s ∧
      q15_axpy_rvv (Hart.standard h.VLMAX) a b y n alpha = .ok s0 ∧
      s.y = s0.y ∧ s.i = s0.i ∧
      ∀ i : Nat, (i : Int) < n → ∃ x z, a[i]? = some x ∧ b[i]? = some z ∧
        s.y[i]? = some (laneOut alpha x z) := by
  obtain ⟨m, rfl, hm⟩ := int_arg_cases n hn0 hn
  obtain ⟨s, hs, hsi, _, _, hl, hfr, hc⟩ :=
    q15_axpy_rvv_spec h hV a b y m alpha hm (by omega) (by omega) (by omega)
  obtain ⟨s0, hs0, hsi0, _, _, hl0, hfr0, hc0⟩ :=
    q15_axpy_rvv_spec (Hart.standard h.VLMAX) hV a b y m alpha hm (by omega) (by omega)
      (by omega)
  refine ⟨s, s0, hs, hs0, List.ext_getElem? fun j => ?_, by rw [hsi, hsi0], fun i hi => ?_⟩
  · by_cases hj : j < m
    · rw [hc hrc j hj, hc0 (fun _ _ => le_refl _) j hj]
    · rw [hfr j (by omega), hfr0 j (by omega)]
  · obtain ⟨x, z, hx, hz, hxz⟩ :=
      zipWith_laneOut_getElem? a b alpha i (by omega) (by omega)
    exact ⟨x, z, hx, hz, by rw [hc hrc i (by omega), hxz]⟩

/-- Witness of C6: the first store of the first chunk commits 2 of 4 lanes. -/
theorem q15_axpy_rvv_short_commit_witness :
    read_vl (Hart.shortAt 4 0 2) 0 4 < 4 ∧
    ∃ s s0, q15_axpy_rvv (Hart.shortAt 4 0 2) [1, 2, 3, 4, 5, 6] [1, 1, 1, 1, 1, 1]
        [0, 0, 0, 0, 0, 0] 6 3 = .ok s ∧
      q15_axpy_rvv (Hart.standard (Hart.shortAt 4 0 2).VLMAX) [1, 2, 3, 4, 5, 6]
        [1, 1, 1, 1, 1, 1] [0, 0, 0, 0, 0, 0] 6 3 = .ok s0 ∧
      s.y = s0.y ∧ s.i = s0.i ∧
      ∀ i : Nat, (i : Int) < 6 → ∃ x z, [1, 2, 3, 4, 5, 6][i]? = some x ∧
        [1, 1, 1, 1, 1, 1][i]? = some z ∧ s.y[i]? = some (laneOut 3 x z) :=
  ⟨by decide,
    q15_axpy_rvv_short_commit (Hart.shortAt 4 0 2) (by decide)
      (fun i vl => by simp [Hart.shortAt])
      [1, 2, 3, 4, 5, 6] [1, 1, 1, 1, 1, 1] [0, 0, 0, 0, 0, 0] 6 3 (by decide) (by decide)
      (by decide) (by decide) (by decide)⟩

/-- C7, as stated, fails: with `VLMAX = 4`, `n = 8` and a first store that
commits 2 of the 4 requested lanes, `trap_vl = 2 < vl = 4`, yet the retry store
covers 4 lanes and the cursor ends the pass at 4, not at 2. -/
theorem iteration_retry_not_by_trap_vl :
    vsetvl_e16m4 (Hart.shortAt 4 0 2) (requested 0 8) = 4 ∧
      read_vl (Hart.shortAt 4 0 2) 0 4 = 2 ∧
      iteration (Hart.shortAt 4 0 2) 8 1
          (initial [1, 2, 3, 4, 5, 6, 7, 8] [1, 1, 1, 1, 1, 1, 1, 1]
            [0, 0, 0, 0, 0, 0, 0, 0])
        = .ok ⟨[1, 2, 3, 4, 5, 6, 7, 8], [1, 1, 1, 1, 1, 1, 1, 1],
            [2, 3, 4, 5, 0, 0, 0, 0], 4, [(0, 2), (0, 4)]⟩ ∧
      (4 : Nat) ≠ 0 + read_vl (Hart.shortAt 4 0 2) 0 4 :=
  ⟨rfl, rfl, rfl, by decide⟩

/-- C7 (amended): when the lane count read after the store is smaller than the
chunk width `vl`, the pass still returns; the width is recomputed as
`vsetvl(vl)`, which is `vl` again, the store is re-issued at the same cursor for
that width, and the cursor advances by exactly `vl`. -/
theorem iteration_retry_keeps_width (h : Hart) (n alpha : Int) (s : State) (hn0 : 0 ≤ n)
    (hn : n ≤ 2147483647) (hi : (s.i : Int) ≤ n) (ha : n ≤ s.a.length)
    (hb : n ≤ s.b.length) (hy : n ≤ s.y.length)
    (hr : read_vl h s.i (vsetvl_e16m4 h (requested s.i n))
      < vsetvl_e16m4 h (requested s.i n)) :
    ∃ s1, iteration h n alpha s = .ok s1 ∧
      vsetvl_e16m4 h (vsetvl_e16m4 h (requested s.i n)) = vsetvl_e16m4 h (requested s.i n) ∧
      s1.i = s.i + vsetvl_e16m4 h (requested s.i n) ∧
      s1.stores = s.stores ++
        [(s.i, read_vl h s.i (vsetvl_e16m4 h (requested s.i n))),
         (s.i, min (h.committed s.i true (vsetvl_e16m4 h (requested s.i n)))
                (vsetvl_e16m4 h (requested s.i n)))] := by
  obtain ⟨m, rfl, hm⟩ := int_arg_cases n hn0 hn
  obtain ⟨s1, hs1, _, _, hi1, _, _, _, hst⟩ :=
    iteration_spec h m alpha s hm (by omega) (by omega) (by omega) (by omega)
  have hvl : vsetvl_e16m4 h (requested s.i (m : Int)) = min h.VLMAX (m - s.i) := by
    rw [requested_natCast m s.i hm (by omega)]; rfl
  rw [hvl] at hr ⊢
  rw [if_pos hr] at hst
  exact ⟨s1, hs1, by unfold vsetvl_e16m4; omega, hi1, hst⟩

/-- Witness of C7 (amended): the pass of the counterexample. -/
theorem iteration_retry_keeps_width_witness :
    ∃ s1, iteration (Hart.shortAt 4 0 2) 8 1
        (initial [1, 2, 3, 4, 5, 6, 7, 8] [1, 1, 1, 1, 1, 1, 1, 1]
          [0, 0, 0, 0, 0, 0, 0, 0]) = .ok s1 ∧ s1.i = 4 ∧
      s1.stores = [(0, 2), (0, 4)] := by
  obtain ⟨s1, hs1, _, hi1, hst⟩ :=
    iteration_retry_keeps_width (Hart.shortAt 4 0 2) 8 1
      (initial [1, 2, 3, 4, 5, 6, 7, 8] [1, 1, 1, 1, 1, 1, 1, 1] [0, 0, 0, 0, 0, 0, 0, 0])
      (by decide) (by decide) (by decide) (by decide) (by decide) (by decide) (by decide)
  exact ⟨s1, hs1, hi1, hst⟩

/-- C8: for every `n >= 0`, buffers of at least `n` cells holding 16 bit
values and every 16 bit `alpha`, the first `n` cells of `y` after the run are
the clamped `a[i] + alpha * b[i]`; lane by lane, the multiply-accumulate takes
the sign-extended `a` lane as accumulator and adds `alpha` times the `b` lane. -/
theorem q15_axpy_rvv_a_plus_alpha_b (h : Hart) (hV : 1 ≤ h.VLMAX) (hrc : h.RetryCommits)
    (a b y : List Int) (n alpha : Int) (hn0 : 0 ≤ n) (hn : n ≤ 2147483647)
    (ha : n ≤ a.length) (hb : n ≤ b.length) (hy : n ≤ y.length)
    (hα : InInt16 alpha) (hA : ∀ x ∈ a, InInt16 x) (hB : ∀ z ∈ b, InInt16 z) :
    (∃ s, q15_axpy_rvv h a b y n alpha = .ok s ∧
      s.y.take n.toNat =
        List.zipWith (fun x z => clamp (x + alpha * z) (-32768) 32767)
          (a.take n.toNat) (b.take n.toNat)) ∧
    (∀ x z, InInt16 x → InInt16 z →
      vwmacc_lane (vsext_lane x) alpha z = x + alpha * z) := by
  constructor
  · obtain ⟨m, rfl, hm⟩ := int_arg_cases n hn0 hn
    obtain ⟨s, hs, _, _, _, _, _, hc⟩ :=
      q15_axpy_rvv_spec h hV a b y m alpha hm (by omega) (by omega) (by omega)
    refine ⟨s, hs, ?_⟩
    rw [Int.toNat_natCast, ← List.take_zipWith]
    apply List.ext_getElem?
    intro j
    rw [List.getElem?_take, List.getElem?_take]
    by_cases hj : j < m
    · rw [if_pos hj, if_pos hj, hc hrc j hj]
      obtain ⟨x, z, hx, hz, hxz⟩ :=
        zipWith_laneOut_getElem? a b alpha j (by omega) (by omega)
      rw [hxz, List.getElem?_zipWith, hx, hz,
        laneOut_eq alpha x z hα (hA x (List.getElem?_mem hx)) (hB z (List.getElem?_mem hz))]
      rfl
    · rw [if_neg hj, if_neg hj]
  · intro x z hx hz
    unfold vsext_lane
    rw [wrapSigned16_of_inInt16 _ hx, vwmacc_lane_exact _ _ _ hx hα hz, add_comm]

/-- Witness of C8, with a lane that saturates. -/
theorem q15_axpy_rvv_a_plus_alpha_b_witness :
    (∃ s, q15_axpy_rvv (Hart.standard 2) [1, 2, 30000] [10, 20, 30] [0, 0, 0] 3 100
        = .ok s ∧
      s.y.take (3 : Int).toNat =
        List.zipWith (fun x z => clamp (x + 100 * z) (-32768) 32767)
          (([1, 2, 30000] : List Int).take (3 : Int).toNat)
          (([10, 20, 30] : List Int).take (3 : Int).toNat)) ∧
    (∀ x z, InInt16 x → InInt16 z →
      vwmacc_lane (vsext_lane x) 100 z = x + 100 * z) :=
  q15_axpy_rvv_a_plus_alpha_b (Hart.standard 2) (by decide) (fun _ _ => le_refl _)
    [1, 2, 30000] [10, 20, 30] [0, 0, 0] 3 100 (by decide) (by decide) (by decide)
    (by decide) (by decide) (by decide) (by decide) (by decide)

/-- C9: for signed 16 bit `p`, `q`, `r` the exact `p * q + r` lies in
`[-2^31, 2^31 - 1]`, so the multiply-accumulate lane, computed modulo `2^32`,
equals the exact integer. -/
theorem vwmacc_lane_no_overflow (p q r : Int) (hp : InInt16 p) (hq : InInt16 q)
    (hr : InInt16 r) :
    -2 ^ 31 ≤ p * q + r ∧ p * q + r ≤ 2 ^ 31 - 1 ∧
      wrapSigned 32 (p * q + r) = p * q + r ∧ vwmacc_lane r p q = p * q + r := by
  have h32 := mul_add_inInt32 p q r hp hq hr
  refine ⟨?_, ?_, wrapSigned32_of_inInt32 _ h32, vwmacc_lane_exact r p q hr hp hq⟩
  · have := h32.1; norm_num; exact this
  · have := h32.2; norm_num; exact this

/-- Witness of C9 at the largest value the lane can take. -/
theorem vwmacc_lane_no_overflow_witness :
    -2 ^ 31 ≤ (-32768 : Int) * (-32768) + 32767 ∧
      (-32768 : Int) * (-32768) + 32767 ≤ 2 ^ 31 - 1 ∧
      wrapSigned 32 ((-32768 : Int) * (-32768) + 32767) = (-32768 : Int) * (-32768) + 32767 ∧
      vwmacc_lane 32767 (-32768) (-32768) = (-32768 : Int) * (-32768) + 32767 :=
  vwmacc_lane_no_overflow (-32768) (-32768) 32767 (by decide) (by decide) (by decide)

/-- C10: for `n >= 0` and `VLMAX >= 1`, from any state with cursor `i <= n`
and `n` cells in each buffer: while `i < n` a pass returns with chunk width
`min(VLMAX, n - i)`, which is at least 1 and at most `n - i`, so the cursor
strictly increases and stays within `n`; and with `n - i` passes of fuel or more
the loop returns with the cursor at `n` exactly and the guard false. -/
theorem q15_axpy_rvv_terminates (h : Hart) (hV : 1 ≤ h.VLMAX) (n alpha : Int) (s : State)
    (hn0 : 0 ≤ n) (hn : n ≤ 2147483647) (hi : (s.i : Int) ≤ n) (ha : n ≤ s.a.length)
    (hb : n ≤ s.b.length) (hy : n ≤ s.y.length) :
    ((s.i : Int) < n → ∃ s1, iteration h n alpha s = .ok s1 ∧
      vsetvl_e16m4 h (requested s.i n) = min h.VLMAX (n.toNat - s.i) ∧
      1 ≤ min h.VLMAX (n.toNat - s.i) ∧ min h.VLMAX (n.toNat - s.i) ≤ n.toNat - s.i ∧
      s1.i = s.i + min h.VLMAX (n.toNat - s.i) ∧ s.i < s1.i ∧ (s1.i : Int) ≤ n) ∧
    (∀ fuel, n.toNat - s.i ≤ fuel →
      ∃ s2, loop h n alpha fuel s = .ok s2 ∧ (s2.i : Int) = n ∧
        loopGuard s2.i n = false) := by
  obtain ⟨m, rfl, hm⟩ := int_arg_cases n hn0 hn
  rw [Int.toNat_natCast]
  constructor
  · intro hlt
    obtain ⟨s1, hs1, _, _, hi1, _⟩ :=
      iteration_spec h m alpha s hm (by omega) (by omega) (by omega) (by omega)
    refine ⟨s1, hs1, ?_, by omega, by omega, hi1, by omega, by omega⟩
    rw [requested_natCast m s.i hm (by omega)]
    rfl
  · intro fuel hf
    obtain ⟨s2, hs2, hi2, _⟩ :=
      loop_spec h hV m alpha hm fuel s (by omega) hf (by omega) (by omega) (by omega)
    refine ⟨s2, hs2, by rw [hi2], ?_⟩
    rw [loopGuard_natCast m s2.i hm, hi2]
    simp

/-- Witness of C10: ten elements on a hart of four lanes, from the entry state:
the first pass moves the cursor to 4, the loop returns with the cursor at 10. -/
theorem q15_axpy_rvv_terminates_witness :
    (∃ s1, iteration (Hart.standard 4) 10 3
        (initial [1, 2, 3, 4, 5, 6, 7, 8, 9, 10] [1, 1, 1, 1, 1, 1, 1, 1, 1, 1]
          [0, 0, 0, 0, 0, 0, 0, 0, 0, 0]) = .ok s1 ∧ s1.i = 4) ∧
    (∃ s2, loop (Hart.standard 4) 10 3 10
        (initial [1, 2, 3, 4, 5, 6, 7, 8, 9, 10] [1, 1, 1, 1, 1, 1, 1, 1, 1, 1]
          [0, 0, 0, 0, 0, 0, 0, 0, 0, 0]) = .ok s2 ∧ (s2.i : Int) = 10) := by
  obtain ⟨h1, h2⟩ := q15_axpy_rvv_terminates (Hart.standard 4) (by decide) 10 3
    (initial [1, 2, 3, 4, 5, 6, 7, 8, 9, 10] [1, 1, 1, 1, 1, 1, 1, 1, 1, 1]
      [0, 0, 0, 0, 0, 0, 0, 0, 0, 0])
    (by decide) (by decide) (by decide) (by decide) (by decide) (by decide)
  obtain ⟨s1, hs1, _, _, _, hi1, _⟩ := h1 (by decide)
  obtain ⟨s2, hs2, hi2, _⟩ := h2 10 (by decide)
  exact ⟨⟨s1, hs1, hi1⟩, ⟨s2, hs2, hi2⟩⟩

/-! ## The store log -/

theorem writtenIndices_cons (p : Nat × Nat) (T : List (Nat × Nat)) :
    writtenIndices (p :: T) = List.range' p.1 p.2 ++ writtenIndices T := by
  unfold writtenIndices
  rw [List.flatMap_cons]

theorem range'_split (i v m : Nat) (hle : i + v ≤ m) :
    List.range' i v ++ List.range' (i + v) (m - (i + v)) = List.range' i (m - i) := by
  have h1 := List.range'_append i v (m - (i + v)) 1
  rw [Nat.one_mul] at h1
  rw [h1]
  congr 1
  omega

/-- The store log of the loop on a hart that keeps `vl`: from cursor `i` the
loop appends one store per pass, the stores tile `[i, n)` left to right. -/
theorem loop_stores_spec (h : Hart) (hV : 1 ≤ h.VLMAX) (hk : h.KeepsVl) (m : Nat)
    (alpha : Int) (hm : m < 2 ^ 64) :
    ∀ (fuel : Nat) (s : State), s.i ≤ m → m - s.i ≤ fuel → m ≤ s.a.length →
      m ≤ s.b.length → m ≤ s.y.length →
      ∃ s2 T, loop h (m : Int) alpha fuel s = .ok s2 ∧ s2.stores = s.stores ++ T ∧
        writtenIndices T = List.range' s.i (m - s.i) ∧
        (∀ p ∈ T, s.i ≤ p.1 ∧ 1 ≤ p.2) ∧ T.Pairwise StoreBefore := by
  intro fuel
  induction fuel with
  | zero =>
    intro s hi hf _ _ _
    have hg : loopGuard s.i (m : Int) = false := by
      rw [loopGuard_natCast m s.i hm]; simp; omega
    refine ⟨s, [], loop_exit h _ alpha 0 s hg, by simp, ?_, by simp, List.Pairwise.nil⟩
    rw [show m - s.i = 0 by omega]
    rfl
  | succ fuel ih =>
    intro s hi hf ha hb hy
    by_cases hlt : s.i < m
    · have hg : loopGuard s.i (m : Int) = true := by
        rw [loopGuard_natCast m s.i hm]; simpa using hlt
      obtain ⟨s1, hs1, ha1, hb1, hi1, hl1, _, _, hst1⟩ :=
        iteration_spec h m alpha s hm hi ha hb hy
      rw [hk s.i _, if_neg (Nat.lt_irrefl _)] at hst1
      obtain ⟨s2, T, hs2, hst2, hw2, hp2, hpw2⟩ :=
        ih s1 (by omega) (by omega) (by rw [ha1]; exact ha) (by rw [hb1]; exact hb)
          (by rw [hl1]; exact hy)
      refine ⟨s2, (s.i, min h.VLMAX (m - s.i)) :: T,
        by rw [loop_step h _ alpha fuel s s1 hg hs1]; exact hs2, ?_, ?_, ?_, ?_⟩
      · rw [hst2, hst1, List.append_assoc, List.singleton_append]
      · rw [writtenIndices_cons, hw2, hi1]
        exact range'_split s.i _ m (by omega)
      · intro p hp
        rcases List.mem_cons.1 hp with rfl | hp
        · exact ⟨Nat.le_refl _, by show 1 ≤ min h.VLMAX (m - s.i); omega⟩
        · obtain ⟨h1, h2⟩ := hp2 p hp
          exact ⟨by omega, h2⟩
      · refine List.pairwise_cons.2 ⟨fun q hq => ?_, hpw2⟩
        obtain ⟨h1, _⟩ := hp2 q hq
        show s.i + min h.VLMAX (m - s.i) ≤ q.1
        omega
    · have hg : loopGuard s.i (m : Int) = false := by
        rw [loopGuard_natCast m s.i hm]; simpa using hlt
      refine ⟨s, [], loop_exit h _ alpha _ s hg, by simp, ?_, by simp, List.Pairwise.nil⟩
      rw [show m - s.i = 0 by omega]
      rfl

/-- Whatever the state, a pass that returns has logged the store of line 25 and,
when the `vl` register read less than `vl`, the retry store of line 31. -/
theorem iteration_ok_stores (h : Hart) (n alpha : Int) (s s1 : State)
    (hs : iteration h n alpha s = .ok s1) :
    s1.stores = s.stores ++
      (if read_vl h s.i (vsetvl_e16m4 h (requested s.i n))
          < vsetvl_e16m4 h (requested s.i n) then
        [(s.i, read_vl h s.i (vsetvl_e16m4 h (requested s.i n))),
         (s.i, min (h.committed s.i true
                  (vsetvl_e16m4 h (vsetvl_e16m4 h (requested s.i n))))
                (vsetvl_e16m4 h (vsetvl_e16m4 h (requested s.i n))))]
      else [(s.i, read_vl h s.i (vsetvl_e16m4 h (requested s.i n)))]) := by
  unfold iteration at hs
  simp only [] at hs
  split at hs
  · cases hs
  · split at hs
    · cases hs
    · split at hs
      · cases hs
      · split at hs
        · rename_i hlt
          rw [if_pos hlt]
          split at hs
          · cases hs
          · cases hs
            rfl
        · rename_i hlt
          rw [if_neg hlt]
          cases hs
          rfl

theorem iteration_ok_stores_length (h : Hart) (n alpha : Int) (s s1 : State)
    (hs : iteration h n alpha s = .ok s1) : s.stores.length < s1.stores.length := by
  rw [iteration_ok_stores h n alpha s s1 hs, List.length_append]
  split <;> simp

theorem loop_ok_stores_length (h : Hart) (n alpha : Int) :
    ∀ (fuel : Nat) (s s2 : State), loop h n alpha fuel s = .ok s2 →
      s.stores.length ≤ s2.stores.length := by
  intro fuel
  induction fuel with
  | zero =>
    intro s s2 hs
    unfold loop at hs
    split at hs
    · cases hs
    · cases hs
      exact Nat.le_refl _
  | succ fuel ih =>
    intro s s2 hs
    unfold loop at hs
    split at hs
    · split at hs
      · rename_i s1 hs1
        have := iteration_ok_stores_length h n alpha s s1 hs1
        have := ih s1 s2 hs
        omega
      · cases hs
    · cases hs
      exact Nat.le_refl _

/-- C11, as stated, fails: in the run with `VLMAX = 4`, `n = 6` whose first
store commits 2 of 4 lanes, the retry stores the chunk again at cursor 0; the
log is `[(0,2), (0,4), (4,2)]`, index 0 is written twice and the stores overlap. -/
theorem store_log_retry_writes_twice :
    q15_axpy_rvv (Hart.shortAt 4 0 2) [1, 2, 3, 4, 5, 6] [1, 1, 1, 1, 1, 1]
        [0, 0, 0, 0, 0, 0] 6 3
      = .ok ⟨[1, 2, 3, 4, 5, 6], [1, 1, 1, 1, 1, 1], [4, 5, 6, 7, 8, 9], 6,
          [(0, 2), (0, 4), (4, 2)]⟩ ∧
      (writtenIndices [(0, 2), (0, 4), (4, 2)]).count 0 = 2 ∧
      ¬ List.Pairwise StoreBefore [(0, 2), (0, 4), (4, 2)] :=
  ⟨rfl, by decide, by decide⟩

/-- C11 (amended): for every `n >= 0`, in every run on a hart with `VLMAX >= 1`
on which the lane count read after a store is the width requested, the indices
written, in the order of the stores, are exactly `0, 1, .., n-1`: every index
of `[0, n)` is written exactly once, and the stores, none empty, follow each
other in ascending order without overlap. -/
theorem q15_axpy_rvv_store_log (h : Hart) (hV : 1 ≤ h.VLMAX) (hk : h.KeepsVl)
    (a b y : List Int) (n alpha : Int) (hn0 : 0 ≤ n) (hn : n ≤ 2147483647)
    (ha : n ≤ a.length) (hb : n ≤ b.length) (hy : n ≤ y.length) :
    ∃ s, q15_axpy_rvv h a b y n alpha = .ok s ∧
      writtenIndices s.stores = List.range n.toNat ∧
      (∀ i : Nat, (i : Int) < n → (writtenIndices s.stores).count i = 1) ∧
      s.stores.Pairwise StoreBefore ∧ ∀ p ∈ s.stores, 1 ≤ p.2 := by
  obtain ⟨m, rfl, hm⟩ := int_arg_cases n hn0 hn
  obtain ⟨s, T, hs, hst, hw, hp, hpw⟩ :=
    loop_stores_spec h hV hk m alpha hm (toSizeT (m : Int)) (initial a b y) (Nat.zero_le _)
      (by rw [toSizeT_natCast m hm]; exact Nat.sub_le _ _) (Int.ofNat_le.1 ha)
      (Int.ofNat_le.1 hb) (Int.ofNat_le.1 hy)
  have hst1 : s.stores = T := by rw [hst]; rfl
  have hw1 : writtenIndices s.stores = List.range m := by
    rw [hst1, hw, List.range_eq_range']; rfl
  refine ⟨s, hs, by rw [hw1, Int.toNat_natCast], fun i hi => ?_, by rw [hst1]; exact hpw,
    fun p hp1 => (hp p (by rw [← hst1]; exact hp1)).2⟩
  rw [hw1]
  exact List.count_eq_one_of_mem (List.nodup_range m) (List.mem_range.2 (by omega))

/-- Witness of C11 (amended): six elements on a standard hart of four lanes. -/
theorem q15_axpy_rvv_store_log_witness :
    ∃ s, q15_axpy_rvv (Hart.standard 4) [1, 2, 3, 4, 5, 6] [1, 1, 1, 1, 1, 1]
        [0, 0, 0, 0, 0, 0] 6 3 = .ok s ∧
      writtenIndices s.stores = List.range (6 : Int).toNat ∧
      (∀ i : Nat, (i : Int) < 6 → (writtenIndices s.stores).count i = 1) ∧
      s.stores.Pairwise StoreBefore ∧ ∀ p ∈ s.stores, 1 ≤ p.2 :=
  q15_axpy_rvv_store_log (Hart.standard 4) (by decide) (fun _ _ => Nat.min_self _)
    [1, 2, 3, 4, 5, 6] [1, 1, 1, 1, 1, 1] [0, 0, 0, 0, 0, 0] 6 3 (by decide) (by decide)
    (by decide) (by decide) (by decide)

/-- C12: the narrowing of line 23 shifts by 0, so for every lane value `v` and
every rounding mode the narrowed lane is `clamp(v, -32768, 32767)`; the mode
changes no lane, no vector and no output of the kernel. (With a shift of 1 the
modes do differ.) -/
theorem vnclip_shift_zero_mode_free (m : VXRM) (v : Int) :
    vnclip_lane m 0 v = clamp v (-32768) 32767 ∧
      vnclip_lane m 0 v = vnclip_lane VXRM.rdn 0 v ∧
      (∀ vs2 vl, vnclip_wx_i16m4 vs2 0 m vl = vnclip_wx_i16m4 vs2 0 VXRM.rdn vl) ∧
      (∀ alpha x z, vnclip_lane m 0 (vwmacc_lane (vsext_lane x) alpha z)
        = laneOut alpha x z) ∧
      vnclip_lane VXRM.rnu 1 3 ≠ vnclip_lane VXRM.rdn 1 3 := by
  have hl : ∀ (k : VXRM) (w : Int), vnclip_lane k 0 w = clamp w (-32768) 32767 := by
    intro k w
    unfold vnclip_lane
    rw [Nat.zero_mod, roundoff_signed_zero]
  refine ⟨hl m v, by rw [hl, hl], fun vs2 vl => ?_, fun alpha x z => ?_, by decide⟩
  · unfold vnclip_wx_i16m4
    apply List.map_congr_left
    intro w _
    rw [hl, hl]
  · unfold laneOut
    rw [hl, hl]

/-- C13: on a hart on which the `vl` register is changed by `vsetvl` only, in
every state and for every `n` the value read after the store equals `vl`, the
guard `trap_vl < vl` is false, and a pass that returns has issued the store of
line 25 only and advanced the cursor by `vl`. -/
theorem retry_unreachable (h : Hart) (hk : h.KeepsVl) (n alpha : Int) (s : State) :
    read_vl h s.i (vsetvl_e16m4 h (requested s.i n)) = vsetvl_e16m4 h (requested s.i n) ∧
      ¬ (read_vl h s.i (vsetvl_e16m4 h (requested s.i n))
          < vsetvl_e16m4 h (requested s.i n)) ∧
      ∀ s1, iteration h n alpha s = .ok s1 →
        s1.stores = s.stores ++ [(s.i, vsetvl_e16m4 h (requested s.i n))] := by
  refine ⟨hk _ _, by rw [hk]; exact Nat.lt_irrefl _, fun s1 hs1 => ?_⟩
  rw [iteration_ok_stores h n alpha s s1 hs1, hk, if_neg (Nat.lt_irrefl _)]

/-- Witness of C13: the first pass on a standard hart of four lanes. -/
theorem retry_unreachable_witness :
    read_vl (Hart.standard 4) 0 4 = 4 ∧ ¬ (read_vl (Hart.standard 4) 0 4 < 4) ∧
      ∀ s1, iteration (Hart.standard 4) 6 3
          (initial [1, 2, 3, 4, 5, 6] [1, 1, 1, 1, 1, 1] [0, 0, 0, 0, 0, 0]) = .ok s1 →
        s1.stores = [(0, 4)] :=
  retry_unreachable (Hart.standard 4) (fun _ _ => Nat.min_self _) 6 3
    (initial [1, 2, 3, 4, 5, 6] [1, 1, 1, 1, 1, 1] [0, 0, 0, 0, 0, 0])

/-- C14: for a negative `int n` the guard `i < n`, taken in `size_t`, is true
at `i = 0` and the count `n - i` passed to `vsetvl` is `2^64 + n`; the run
starts with a pass through the loop body, so it never returns the entry state:
a run that returns has issued a store. -/
theorem q15_axpy_rvv_negative_n (n : Int) (hn : InInt32 n) (hneg : n < 0) :
    loopGuard 0 n = true ∧ (requested 0 n : Int) = 2 ^ 64 + n ∧
      (∀ h a b y alpha, q15_axpy_rvv h a b y n alpha =
        match iteration h n alpha (initial a b y) with
        | .ok s1 => loop h n alpha (toSizeT n - 1) s1
        | .error e => .error e) ∧
      (∀ h a b y alpha s, q15_axpy_rvv h a b y n alpha = .ok s → s.stores ≠ []) := by
  obtain ⟨hlo, _⟩ := hn
  have hmod : n % 2 ^ 64 = n + 2 ^ 64 := by omega
  have hsz : toSizeT n = (n + 2 ^ 64).toNat := by
    unfold toSizeT; rw [hmod]
  have hpos : 0 < toSizeT n := by rw [hsz]; omega
  have hg : loopGuard 0 n = true := by
    unfold loopGuard; simpa using hpos
  have hrun : ∀ h a b y alpha, q15_axpy_rvv h a b y n alpha =
      match iteration h n alpha (initial a b y) with
      | .ok s1 => loop h n alpha (toSizeT n - 1) s1
      | .error e => .error e := by
    intro h a b y alpha
    unfold q15_axpy_rvv
    obtain ⟨k, hk⟩ : ∃ k, toSizeT n = k + 1 := ⟨toSizeT n - 1, by omega⟩
    rw [hk, Nat.add_sub_cancel]
    have hg0 : loopGuard (initial a b y).i n = true := hg
    simp only [loop, hg0, if_true]
  refine ⟨hg, ?_, hrun, fun h a b y alpha s hs => ?_⟩
  · unfold requested sizeSub
    rw [hsz]
    omega
  · rw [hrun] at hs
    split at hs
    · rename_i s1 hs1
      have h1 := iteration_ok_stores_length h n alpha (initial a b y) s1 hs1
      have h2 := loop_ok_stores_length h n alpha _ s1 s hs
      intro hnil
      have h0 : (initial a b y).stores.length = 0 := rfl
      have h3 : s.stores.length = 0 := by rw [hnil]; rfl
      omega
    · cases hs

/-- Witness of C14 at `n = -1`: the guard holds and `2^64 - 1` lanes are asked
for. -/
theorem q15_axpy_rvv_negative_n_witness :
    loopGuard 0 (-1) = true ∧ (requested 0 (-1) : Int) = 2 ^ 64 + (-1) :=
  ⟨(q15_axpy_rvv_negative_n (-1) (by decide) (by decide)).1,
    (q15_axpy_rvv_negative_n (-1) (by decide) (by decide)).2.1⟩

end Q15Axpy

namespace SumArray

/-! ## The summation loop -/

theorem wrapSigned64_of_inLong (x : Int) (hx : InLong x) : Q15Axpy.wrapSigned 64 x = x := by
  obtain ⟨h1, h2⟩ := hx
  unfold Q15Axpy.wrapSigned
  norm_num
  rw [Int.emod_eq_of_lt (by omega) (by omega)]
  omega

theorem sum_loop_exit (n fuel : Nat) (s : SumState) (hg : ¬ s.i < n) :
    sum_loop n fuel s = .ok s := by
  cases fuel <;> simp [sum_loop, hg]

theorem sum_loop_step (n fuel : Nat) (s s1 : SumState) (hg : s.i < n)
    (hs : sum_body s = .ok s1) :
    sum_loop n (fuel + 1) s = sum_loop n fuel s1 := by
  simp [sum_loop, hg, hs]

/-- Loop invariant: with the accumulator at the sum of the first `i` elements
and `n - i` passes of fuel or more, the loop returns with the sum of the first
`n` elements, the counter at `n` and the array as it was. -/
theorem sum_loop_spec (array : List Int) (n : Nat) (hn : n ≤ array.length) (hsz : n < 2 ^ 64)
    (hex : ∀ k, k ≤ n → InLong (array.take k).sum) :
    ∀ (fuel i : Nat), i ≤ n → n - i ≤ fuel →
      sum_loop n fuel { array := array, sum := (array.take i).sum, i := i }
        = .ok { array := array, sum := (array.take n).sum, i := n } := by
  intro fuel
  induction fuel with
  | zero =>
    intro i hi hf
    have hin : i = n := by omega
    subst hin
    exact sum_loop_exit _ 0 _ (Nat.lt_irrefl _)
  | succ fuel ih =>
    intro i hi hf
    by_cases hlt : i < n
    · have hb : sum_body { array := array, sum := (array.take i).sum, i := i }
          = .ok { array := array, sum := (array.take (i + 1)).sum, i := i + 1 } := by
        unfold sum_body
        simp only [List.getElem?_eq_getElem (Nat.lt_of_lt_of_le hlt hn)]
        rw [← List.sum_take_succ array i (Nat.lt_of_lt_of_le hlt hn),
          wrapSigned64_of_inLong _ (hex (i + 1) hlt), Q15Axpy.sizeAdd_small i 1 (by omega)]
      rw [sum_loop_step n fuel _ _ hlt hb]
      exact ih (i + 1) hlt (by omega)
    · have hin : i = n := by omega
      subst hin
      exact sum_loop_exit _ _ _ (Nat.lt_irrefl _)

/-- The value returned and the array after the call, when no running sum
leaves the range of `long`. -/
theorem sum_array_eq (array : List Int) (n : Nat) (hn : n ≤ array.length)
    (hsz : n < 2 ^ 64) (hex : ∀ k, k ≤ n → InLong (array.take k).sum) :
    sum_array array n = .ok (array, (array.take n).sum) := by
  unfold sum_array
  have h := sum_loop_spec array n hn hsz hex n 0 (Nat.zero_le _) (Nat.sub_le _ _)
  rw [List.take_zero, List.sum_nil] at h
  rw [h]

theorem main_eq : main = .ok 36 := by
  unfold main
  rw [sum_array_eq [1, 2, 3, 4, 5, 6, 7, 8] 8 (by decide) (by norm_num)
    (fun k hk => by interval_cases k <;> decide)]
  rfl

/-- C15: for an array of longs and `n` not above its length, `sum_array`
returns the sum of the first `n` elements when every running sum is in the range
of `long`, and leaves the array as it was; for `n = 0` it returns 0; the driver,
on `{1,2,3,4,5,6,7,8}` with `n = 8`, gets 36. -/
theorem sum_array_correct (array : List Int) (n : Nat) (hn : n ≤ array.length)
    (hsz : n < 2 ^ 64) (hex : ∀ k, k ≤ n → InLong (array.take k).sum) :
    sum_array array n = .ok (array, (array.take n).sum) ∧
      sum_array array 0 = .ok (array, 0) ∧ main = .ok 36 :=
  ⟨sum_array_eq array n hn hsz hex, rfl, main_eq⟩

/-- Witness of C15 on the array of the driver. -/
theorem sum_array_correct_witness :
    sum_array [1, 2, 3, 4, 5, 6, 7, 8] 8
        = .ok ([1, 2, 3, 4, 5, 6, 7, 8], (([1, 2, 3, 4, 5, 6, 7, 8] : List Int).take 8).sum) ∧
      sum_array [1, 2, 3, 4, 5, 6, 7, 8] 0 = .ok ([1, 2, 3, 4, 5, 6, 7, 8], 0) ∧
      main = .ok 36 :=
  sum_array_correct [1, 2, 3, 4, 5, 6, 7, 8] 8 (by decide) (by norm_num)
    (fun k hk => by interval_cases k <;> decide)

end SumArray
